import Mathlib

/-!
Verification of the Context & Memory Management Engine of the elroy repository.

The configuration layer (`ElroyConfig`, `ElroyContext.__init__`) is embedded
from the Python source in the ElroyContext refactoring requirements document
(`elroy/core/config.py`, `elroy/core/ctx.py`).  The runtime engines (context
window compaction, memory store, consolidation, similarity index, operation
tracker) are modelled from the specification, since their implementation
modules are not part of the analysed sources.
-/

namespace Elroy

/-- A dynamically-typed Python value as it appears in the kwargs dict that
`ElroyContext.__init__` receives and that `ElroyConfig` stores in a
`SimpleNamespace`.  `pyNone` is Python's `None`. -/
inductive Val where
  | pyNone
  | int (n : Int)
  | rat (q : Rat)
  | str (s : String)
  | bool (b : Bool)
deriving DecidableEq

/-- A Python keyword-argument dictionary, as an association list from
parameter name to value (Python dicts have unique keys; lookup is
first-match). -/
abbrev Kwargs := List (String × Val)

/-- Key lookup in a kwargs dict: `some v` when the key is present (even if its
value is Python `None`), `none` when the key is absent. -/
def dictFind : Kwargs → String → Option Val
  | [], _ => none
  | (k', v) :: rest, k => if k' = k then some v else dictFind rest k

/-- Python `d.get(k, default)`: the stored value when the key is present,
otherwise the default. -/
def dictGetD (kw : Kwargs) (k : String) (d : Val) : Val :=
  match dictFind kw k with
  | some v => v
  | none => d

/-- Python `d.get(k)`, i.e. `d.get(k, None)`. -/
def dictGet (kw : Kwargs) (k : String) : Val :=
  dictGetD kw k Val.pyNone

/-- `ElroyConfig` (elroy/core/config.py): stores every constructor kwarg in
`self._config = SimpleNamespace(**kwargs)`. -/
structure ElroyConfig where
  config : Kwargs
deriving DecidableEq

/-- `ElroyConfig.__getattr__(self, name)`: `getattr(self._config, name, None)`
— the stored value when the attribute was supplied at construction, and
Python `None` otherwise (never an `AttributeError`). -/
def ElroyConfig.getattr (cfg : ElroyConfig) (name : String) : Val :=
  dictGet cfg.config name

/-- A Python exception that `ElroyContext.__init__` can raise.  The body
contains no explicit `raise`; only a `TypeError` from evaluating
`int(kwargs.get('max_tokens', 4000) / 3)` on a non-numeric value is
possible. -/
inductive PyError where
  | typeError
deriving DecidableEq

/-- Python `int(v / 3)` for a kwargs value `v`: true division followed by
truncation toward zero (`Int.div` is Lean's truncating division), and a
`TypeError` when the value is not an integer. -/
def intDivThree : Val → Except PyError Int
  | .int n => .ok (Int.tdiv n 3)
  | _ => .error .typeError

/-- The fields of `ElroyContext` (elroy/core/ctx.py) relevant to context and
memory management.  `maxTokens` is the compaction trigger budget
(`self.max_tokens = kwargs.get('max_tokens')`);
`contextRefreshTargetTokens` is the compaction target budget. -/
structure ElroyContext where
  config : ElroyConfig
  maxTokens : Val
  contextRefreshTargetTokens : Int
  l2MemoryRelevanceDistanceThreshold : Val
  memoriesBetweenConsolidation : Val
deriving DecidableEq

/-- `ElroyContext.__init__(self, **kwargs)`: stores the kwargs in an
`ElroyConfig` and copies the individual parameters, computing
`self.context_refresh_target_tokens = int(kwargs.get('max_tokens', 4000) / 3)`.
The constructor performs no validation of the token budgets (the classmethod
`ElroyContext.init` also performs none: it only resolves model aliases and
drops unrecognised parameter names with a warning before delegating here). -/
def elroyContextInit (kw : Kwargs) : Except PyError ElroyContext :=
  match intDivThree (dictGetD kw "max_tokens" (Val.int 4000)) with
  | .error e => .error e
  | .ok target =>
    .ok
      { config := ⟨kw⟩
        maxTokens := dictGet kw "max_tokens"
        contextRefreshTargetTokens := target
        l2MemoryRelevanceDistanceThreshold :=
          dictGet kw "l2_memory_relevance_distance_threshold"
        memoriesBetweenConsolidation := dictGet kw "memories_between_consolidation" }

/-- Modelled from the spec: a conversational Message of the Context Window
Tracker (the message-window implementation module is not among the analysed
sources).  Identifier/role/content are irrelevant to the claims; a message
carries its token count, creation timestamp, ordinal position and the
mutable in-context flag. -/
structure Message where
  ordinal : Nat
  tokens : Nat
  createdAt : Int
  inContext : Bool
deriving DecidableEq

/-- Token contribution of a message to the window total: only in-context
messages count. -/
def msgTokens (m : Message) : Nat :=
  if m.inContext then m.tokens else 0

/-- Total token count of a window (sum over in-context messages). -/
def totalTokens (w : List Message) : Nat :=
  (w.map msgTokens).sum

/-- Eviction of a single message: sets in-context = false; the message row is
never deleted. -/
def evictMsg (m : Message) : Message :=
  { m with inContext := false }

/-- Modelled from the spec: `append(message)` adds the message to the window,
marks it in-context, and (implicitly) adds its token count to the running
total; it always succeeds. -/
def appendMsg (w : List Message) (m : Message) : List Message :=
  w ++ [{ m with inContext := true }]

/-- Modelled from the spec: the eviction loop of `maybe_compact()`.  The
window is ordered oldest-first (ties by ordinal).  Repeatedly evicts the
oldest in-context message until the total token count is at most the target
budget, or until the oldest remaining in-context message is younger than the
configured age floor (`now - createdAt < minAge`), in which case compaction
stops: messages newer than the minimum age are never evicted. -/
def evictLoop (now minAge : Int) (target : Nat) : List Message → List Message
  | [] => []
  | m :: rest =>
    if totalTokens (m :: rest) ≤ target then m :: rest
    else if m.inContext = false then m :: evictLoop now minAge target rest
    else if minAge ≤ now - m.createdAt then
      evictMsg m :: evictLoop now minAge target rest
    else m :: rest

/-- Modelled from the spec: `maybe_compact()` — if the total token count has
reached the trigger budget, run the eviction loop toward the target budget;
otherwise do nothing. -/
def maybeCompact (now minAge : Int) (target trigger : Nat)
    (w : List Message) : List Message :=
  if trigger ≤ totalTokens w then evictLoop now minAge target w else w

/-- Lifecycle state of a Memory: active, consolidated into a successor
memory (provenance-preserving, never deleted), or archived. -/
inductive MemoryState where
  | active
  | consolidatedInto (newId : Nat)
  | archived
deriving DecidableEq

/-- Modelled from the spec: a durable Memory record (the memory-store
implementation module is not among the analysed sources).  The embedding is
`Option` so that the invariant "an active memory always has an embedding
computed at creation" is a provable property rather than a typing
triviality. -/
structure Memory where
  id : Nat
  name : String
  text : String
  embedding : Option (List Rat)
  createdAt : Int
  owner : Nat
  state : MemoryState
deriving DecidableEq

/-- Modelled from the spec: the Memory Store — the owning collection of
Memory rows plus the next fresh identifier. -/
structure MemoryStore where
  mems : List Memory
  nextId : Nat
deriving DecidableEq

/-- Well-formedness: every stored row's id is below the fresh-id counter. -/
def MemoryStore.WF (st : MemoryStore) : Prop :=
  ∀ m ∈ st.mems, m.id < st.nextId

/-- Every stored Memory row has an embedding (no orphaned record). -/
def MemoryStore.WellEmbedded (st : MemoryStore) : Prop :=
  ∀ m ∈ st.mems, m.embedding ≠ none

/-- The error a `Memory Store.create` raises when the embedding provider is
unreachable or times out. -/
inductive CreateError where
  | embeddingUnavailable
deriving DecidableEq

/-- Modelled from the spec: `Memory Store.create(name, text, owner)` —
computes the embedding via the provider (`embedFn`; `none` models an
unreachable or timed-out provider), and only then persists the Memory with
state = active.  On provider failure it fails with `EmbeddingUnavailable`
and nothing is committed. -/
def createMemory (embedFn : String → Option (List Rat)) (st : MemoryStore)
    (name text : String) (owner : Nat) (now : Int) :
    Except CreateError (MemoryStore × Nat) :=
  match embedFn text with
  | none => .error .embeddingUnavailable
  | some v =>
    .ok
      ({ mems := st.mems ++
            [{ id := st.nextId, name := name, text := text,
               embedding := some v, createdAt := now, owner := owner,
               state := .active }]
         nextId := st.nextId + 1 },
        st.nextId)

/-- `get(id)`: the first stored row with the given id, if any. -/
def getMemory (st : MemoryStore) (id : Nat) : Option Memory :=
  st.mems.find? (fun m => m.id == id)

/-- Modelled from the spec: `mark_consolidated(old_ids, new_id)` — sets each
listed memory's state to consolidated-into(new_id); rows are never
removed. -/
def markConsolidated (st : MemoryStore) (oldIds : List Nat) (newId : Nat) :
    MemoryStore :=
  { st with
    mems := st.mems.map fun m =>
      if m.id ∈ oldIds then { m with state := .consolidatedInto newId }
      else m }

/-- The member texts of a cluster, in member order. -/
def clusterTexts (st : MemoryStore) (memberIds : List Nat) : List String :=
  memberIds.filterMap fun i => (getMemory st i).map Memory.text

/-- Modelled from the spec: consolidation of one cluster by the
Consolidation Engine.  `summarize` is the LLM summarization collaborator
(`none` models a failed or timed-out call, returning a name and body
otherwise).  On summarization success, the merged memory is created through
`Memory Store.create` and only then are all members marked
consolidated-into the new id; on any failure the store is left untouched
(full rollback, no partial state). -/
def consolidateCluster (embedFn : String → Option (List Rat))
    (summarize : List String → Option (String × String)) (st : MemoryStore)
    (memberIds : List Nat) (owner : Nat) (now : Int) : MemoryStore :=
  match summarize (clusterTexts st memberIds) with
  | none => st
  | some (name, body) =>
    match createMemory embedFn st name body owner now with
    | .error _ => st
    | .ok (st', newId) => markConsolidated st' memberIds newId

/-- Squared L2 distance between two embedding vectors.  Comparing the true
Euclidean distance against a nonnegative threshold `t` is equivalent to
comparing this squared distance against `t * t`, which keeps the model
executable over `Rat`. -/
def distSq (u v : List Rat) : Rat :=
  ((u.zip v).map fun p => (p.1 - p.2) * (p.1 - p.2)).sum

/-- Distance key of a memory for result ordering (rows without an embedding
never qualify, so their key is irrelevant). -/
def memDistSq (qv : List Rat) (m : Memory) : Rat :=
  match m.embedding with
  | some e => distSq e qv
  | none => 0

/-- Modelled from the spec: the qualification predicate of
`Similarity Index.query`: owner-scoped, active, embedded, and with L2
distance to the query vector at most max_distance (squared form). -/
def qualifies (owner : Nat) (qv : List Rat) (maxd : Rat) (m : Memory) : Bool :=
  decide (m.owner = owner) && decide (m.state = MemoryState.active) &&
    match m.embedding with
    | some e => decide (distSq e qv ≤ maxd * maxd)
    | none => false

/-- Modelled from the spec: the result ordering of `query` — ascending
distance, ties broken by most-recent creation timestamp first. -/
def recallLE (qv : List Rat) (a b : Memory) : Prop :=
  memDistSq qv a < memDistSq qv b ∨
    (memDistSq qv a = memDistSq qv b ∧ b.createdAt ≤ a.createdAt)

instance (qv : List Rat) : DecidableRel (recallLE qv) := fun a b => by
  unfold recallLE
  infer_instance

instance (qv : List Rat) : IsTotal Memory (recallLE qv) where
  total a b := by
    unfold recallLE
    rcases lt_trichotomy (memDistSq qv a) (memDistSq qv b) with h | h | h
    · exact Or.inl (Or.inl h)
    · rcases le_total b.createdAt a.createdAt with ht | ht
      · exact Or.inl (Or.inr ⟨h, ht⟩)
      · exact Or.inr (Or.inr ⟨h.symm, ht⟩)
    · exact Or.inr (Or.inl h)

instance (qv : List Rat) : IsTrans Memory (recallLE qv) where
  trans a b c hab hbc := by
    unfold recallLE at *
    rcases hab with hab | ⟨hab, hta⟩ <;> rcases hbc with hbc | ⟨hbc, htb⟩
    · exact Or.inl (hab.trans hbc)
    · exact Or.inl (hbc ▸ hab)
    · exact Or.inl (hab ▸ hbc)
    · exact Or.inr ⟨hab.trans hbc, htb.trans hta⟩

/-- Modelled from the spec:
`Similarity Index.query(owner, query_vector, k, max_distance)` — the
qualifying memories, sorted ascending by distance (ties: most recent
first), truncated to the first k; an empty list (not an error) when nothing
qualifies. -/
def simQuery (index : List Memory) (owner : Nat) (qv : List Rat) (k : Nat)
    (maxd : Rat) : List Memory :=
  ((index.filter (qualifies owner qv maxd)).insertionSort (recallLE qv)).take k

/-- Default of the `memories_between_consolidation` configuration parameter:
how many memories are created before consolidation triggers. -/
def defaultMemoriesBetweenConsolidation : Nat := 4

/-- Modelled from the spec: the per-user operation counters
(`MemoryOperationTracker`): memories created since the last consolidation
and messages since the last memory creation. -/
structure MemoryOperationTracker where
  memoriesSinceConsolidation : Nat
  messagesSinceMemory : Nat
deriving DecidableEq

/-- Modelled from the spec: `should_consolidate()` — true when the
memories-since-last-consolidation counter has reached the configured
threshold. -/
def shouldConsolidate (threshold : Nat) (t : MemoryOperationTracker) : Bool :=
  decide (threshold ≤ t.memoriesSinceConsolidation)

/-- Modelled from the spec: the tracker step when a memory is created — the
counter is incremented, and when it has reached the threshold a
consolidation pass runs (first component true) and resets the counter to
zero. -/
def onMemoryCreated (threshold : Nat) (t : MemoryOperationTracker) :
    Bool × MemoryOperationTracker :=
  let t1 : MemoryOperationTracker :=
    { t with memoriesSinceConsolidation := t.memoriesSinceConsolidation + 1 }
  if shouldConsolidate threshold t1 then
    (true, { t1 with memoriesSinceConsolidation := 0 })
  else (false, t1)

/-! ## Theorems -/

theorem totalTokens_cons (m : Message) (l : List Message) :
    totalTokens (m :: l) = msgTokens m + totalTokens l := by
  simp [totalTokens]

theorem evictMsg_of_not_inContext {m : Message} (h : m.inContext = false) :
    evictMsg m = m := by
  cases m
  simp_all [evictMsg]

theorem msgTokens_evictMsg (m : Message) : msgTokens (evictMsg m) = 0 := by
  simp [msgTokens, evictMsg]

theorem evictLoop_budget_or_young (now minAge : Int) (target : Nat)
    (w : List Message)
    (hsort : w.Pairwise (fun a b => a.createdAt ≤ b.createdAt)) :
    totalTokens (evictLoop now minAge target w) ≤ target ∨
      ∀ m ∈ evictLoop now minAge target w, m.inContext = true →
        now - m.createdAt < minAge := by
  induction w with
  | nil => left; simp [evictLoop, totalTokens]
  | cons m rest ih =>
    rw [List.pairwise_cons] at hsort
    rw [evictLoop]
    by_cases h1 : totalTokens (m :: rest) ≤ target
    · rw [if_pos h1]
      exact Or.inl h1
    · rw [if_neg h1]
      by_cases h2 : m.inContext = false
      · rw [if_pos h2]
        rcases ih hsort.2 with hle | hall
        · left
          rw [totalTokens_cons]
          simpa [msgTokens, h2] using hle
        · right
          intro m' hm' hctx
          rcases List.mem_cons.mp hm' with rfl | hm'
          · rw [h2] at hctx; exact absurd hctx (by simp)
          · exact hall m' hm' hctx
      · rw [if_neg h2]
        by_cases h3 : minAge ≤ now - m.createdAt
        · rw [if_pos h3]
          rcases ih hsort.2 with hle | hall
          · left
            rw [totalTokens_cons, msgTokens_evictMsg]
            simpa using hle
          · right
            intro m' hm' hctx
            rcases List.mem_cons.mp hm' with rfl | hm'
            · exact absurd hctx (by simp [evictMsg])
            · exact hall m' hm' hctx
        · rw [if_neg h3]
          right
          intro m' hm' _
          rcases List.mem_cons.mp hm' with rfl | hm'
          · omega
          · have := hsort.1 m' hm'
            omega

theorem evictLoop_forall₂ (now minAge : Int) (target : Nat)
    (w : List Message) :
    List.Forall₂
      (fun a b => b = a ∨
        (b = evictMsg a ∧ a.inContext = true ∧ minAge ≤ now - a.createdAt))
      w (evictLoop now minAge target w) := by
  induction w with
  | nil => exact List.Forall₂.nil
  | cons m rest ih =>
    rw [evictLoop]
    by_cases h1 : totalTokens (m :: rest) ≤ target
    · rw [if_pos h1]
      exact List.forall₂_same.mpr fun a _ => Or.inl rfl
    · rw [if_neg h1]
      by_cases h2 : m.inContext = false
      · rw [if_pos h2]
        exact List.Forall₂.cons (Or.inl rfl) ih
      · rw [if_neg h2]
        by_cases h3 : minAge ≤ now - m.createdAt
        · rw [if_pos h3]
          exact List.Forall₂.cons
            (Or.inr ⟨rfl, Bool.not_eq_false m.inContext |>.mp h2, h3⟩) ih
        · rw [if_neg h3]
          exact List.forall₂_same.mpr fun a _ => Or.inl rfl

theorem evictLoop_prefix (now minAge : Int) (target : Nat) (w : List Message) :
    ∃ k ≤ w.length,
      evictLoop now minAge target w =
        (w.take k).map evictMsg ++ w.drop k := by
  induction w with
  | nil => exact ⟨0, by simp [evictLoop]⟩
  | cons m rest ih =>
    rw [evictLoop]
    by_cases h1 : totalTokens (m :: rest) ≤ target
    · exact ⟨0, by simp, by rw [if_pos h1]; simp⟩
    · rw [if_neg h1]
      by_cases h2 : m.inContext = false
      · rw [if_pos h2]
        obtain ⟨k, hk, heq⟩ := ih
        refine ⟨k + 1, by simpa using hk, ?_⟩
        simp [heq, evictMsg_of_not_inContext h2]
      · rw [if_neg h2]
        by_cases h3 : minAge ≤ now - m.createdAt
        · rw [if_pos h3]
          obtain ⟨k, hk, heq⟩ := ih
          refine ⟨k + 1, by simpa using hk, ?_⟩
          simp [heq]
        · exact ⟨0, by simp, by rw [if_neg h3]; simp⟩

/-- Counterexample to C1 as stated: appending a single 110-token message and
calling `maybe_compact()` with target budget 100 and trigger budget 120 is a
no-op (110 < 120), leaving the total at 110 > 100 while the lone in-context
message is far older than the minimum-age floor — the claimed disjunction
fails in the band between target and trigger. -/
theorem maybeCompact_budget_claim_fails :
    maybeCompact 100000 720 100 120 (appendMsg [] ⟨1, 110, 0, true⟩) =
      appendMsg [] ⟨1, 110, 0, true⟩ ∧
    ¬ (totalTokens
          (maybeCompact 100000 720 100 120 (appendMsg [] ⟨1, 110, 0, true⟩)) ≤
            100 ∨
        ∀ m ∈ maybeCompact 100000 720 100 120 (appendMsg [] ⟨1, 110, 0, true⟩),
          m.inContext = true → (100000 : Int) - m.createdAt < 720) := by
  constructor
  · rfl
  · decide

/-- C1 amended: after `maybe_compact()` returns, either the total token count
is below the trigger budget (compaction was not invoked), or it is at most
the target budget, or every in-context message is younger than the
minimum-age floor; and in every case compaction only ever flips the
in-context flag of messages whose age has reached the floor — a message
newer than the minimum age is never evicted, even while the total exceeds
the budget. -/
theorem maybeCompact_budget_or_young (now minAge : Int)
    (target trigger : Nat) (w : List Message)
    (hsort : w.Pairwise (fun a b => a.createdAt ≤ b.createdAt)) :
    (totalTokens (maybeCompact now minAge target trigger w) < trigger ∨
      totalTokens (maybeCompact now minAge target trigger w) ≤ target ∨
      ∀ m ∈ maybeCompact now minAge target trigger w, m.inContext = true →
        now - m.createdAt < minAge) ∧
    List.Forall₂
      (fun a b => b = a ∨
        (b = evictMsg a ∧ a.inContext = true ∧ minAge ≤ now - a.createdAt))
      w (maybeCompact now minAge target trigger w) := by
  unfold maybeCompact
  by_cases h : trigger ≤ totalTokens w
  · simp only [h, if_true]
    refine ⟨?_, evictLoop_forall₂ now minAge target w⟩
    rcases evictLoop_budget_or_young now minAge target w hsort with hle | hall
    · exact Or.inr (Or.inl hle)
    · exact Or.inr (Or.inr hall)
  · simp only [h, if_false]
    exact ⟨Or.inl (by omega),
      List.forall₂_same.mpr fun a _ => Or.inl rfl⟩

/-- Witness for C1 amended: a two-message window over budget whose older
message is past the age floor and younger message is not; compaction evicts
exactly the old one and the amended disjunction holds. -/
theorem maybeCompact_budget_or_young_witness :
    (totalTokens
        (maybeCompact 1000 720 5 15
          [⟨1, 10, 0, true⟩, ⟨2, 10, 900, true⟩]) < 15 ∨
      totalTokens
        (maybeCompact 1000 720 5 15
          [⟨1, 10, 0, true⟩, ⟨2, 10, 900, true⟩]) ≤ 5 ∨
      ∀ m ∈ maybeCompact 1000 720 5 15
          [⟨1, 10, 0, true⟩, ⟨2, 10, 900, true⟩], m.inContext = true →
        (1000 : Int) - m.createdAt < 720) ∧
    List.Forall₂
      (fun a b => b = a ∨
        (b = evictMsg a ∧ a.inContext = true ∧ (720 : Int) ≤ 1000 - a.createdAt))
      [⟨1, 10, 0, true⟩, ⟨2, 10, 900, true⟩]
      (maybeCompact 1000 720 5 15
        [⟨1, 10, 0, true⟩, ⟨2, 10, 900, true⟩]) :=
  maybeCompact_budget_or_young 1000 720 5 15
    [⟨1, 10, 0, true⟩, ⟨2, 10, 900, true⟩] (by decide)

/-- C2: compaction evicts strictly oldest-first: the result of
`maybe_compact()` is obtained by clearing the in-context flag on a prefix of
the (ordinal-ordered) window and leaving the suffix untouched, and every
message of that prefix has a strictly smaller ordinal than every surviving
message of the suffix — so when n messages must be evicted they are exactly
the n with the smallest ordinals, and no message is evicted while an older
one remains in-context. -/
theorem maybeCompact_evicts_oldest_prefix (now minAge : Int)
    (target trigger : Nat) (w : List Message)
    (hsort : w.Pairwise (fun a b => a.ordinal < b.ordinal)) :
    ∃ k ≤ w.length,
      maybeCompact now minAge target trigger w =
        (w.take k).map evictMsg ++ w.drop k ∧
      ∀ a ∈ w.take k, ∀ b ∈ w.drop k, a.ordinal < b.ordinal := by
  have hcross : ∀ k, ∀ a ∈ w.take k, ∀ b ∈ w.drop k, a.ordinal < b.ordinal := by
    intro k
    have h := (List.take_append_drop k w) ▸ hsort
    exact (List.pairwise_append.mp h).2.2
  unfold maybeCompact
  by_cases h : trigger ≤ totalTokens w
  · simp only [h, if_true]
    obtain ⟨k, hk, heq⟩ := evictLoop_prefix now minAge target w
    exact ⟨k, hk, heq, hcross k⟩
  · simp only [h, if_false]
    exact ⟨0, by simp, by simp, hcross 0⟩

/-- Witness for C2, the spec's own scenario: ten 10-token messages with
ordinals 1..10, target 70, trigger 100 — compaction must evict three, and
the evicted set is the prefix with the three smallest ordinals. -/
theorem maybeCompact_evicts_oldest_prefix_witness :
    ∃ k ≤ (List.length
        [(⟨1, 10, 0, true⟩ : Message), ⟨2, 10, 0, true⟩, ⟨3, 10, 0, true⟩,
          ⟨4, 10, 0, true⟩, ⟨5, 10, 0, true⟩, ⟨6, 10, 0, true⟩,
          ⟨7, 10, 0, true⟩, ⟨8, 10, 0, true⟩, ⟨9, 10, 0, true⟩,
          ⟨10, 10, 0, true⟩]),
      maybeCompact 100000 720 70 100
          [⟨1, 10, 0, true⟩, ⟨2, 10, 0, true⟩, ⟨3, 10, 0, true⟩,
            ⟨4, 10, 0, true⟩, ⟨5, 10, 0, true⟩, ⟨6, 10, 0, true⟩,
            ⟨7, 10, 0, true⟩, ⟨8, 10, 0, true⟩, ⟨9, 10, 0, true⟩,
            ⟨10, 10, 0, true⟩] =
        (List.take k
            [(⟨1, 10, 0, true⟩ : Message), ⟨2, 10, 0, true⟩, ⟨3, 10, 0, true⟩,
              ⟨4, 10, 0, true⟩, ⟨5, 10, 0, true⟩, ⟨6, 10, 0, true⟩,
              ⟨7, 10, 0, true⟩, ⟨8, 10, 0, true⟩, ⟨9, 10, 0, true⟩,
              ⟨10, 10, 0, true⟩]).map evictMsg ++
          List.drop k
            [(⟨1, 10, 0, true⟩ : Message), ⟨2, 10, 0, true⟩, ⟨3, 10, 0, true⟩,
              ⟨4, 10, 0, true⟩, ⟨5, 10, 0, true⟩, ⟨6, 10, 0, true⟩,
              ⟨7, 10, 0, true⟩, ⟨8, 10, 0, true⟩, ⟨9, 10, 0, true⟩,
              ⟨10, 10, 0, true⟩] ∧
      ∀ a ∈ List.take k
          [(⟨1, 10, 0, true⟩ : Message), ⟨2, 10, 0, true⟩, ⟨3, 10, 0, true⟩,
            ⟨4, 10, 0, true⟩, ⟨5, 10, 0, true⟩, ⟨6, 10, 0, true⟩,
            ⟨7, 10, 0, true⟩, ⟨8, 10, 0, true⟩, ⟨9, 10, 0, true⟩,
            ⟨10, 10, 0, true⟩],
        ∀ b ∈ List.drop k
            [(⟨1, 10, 0, true⟩ : Message), ⟨2, 10, 0, true⟩, ⟨3, 10, 0, true⟩,
              ⟨4, 10, 0, true⟩, ⟨5, 10, 0, true⟩, ⟨6, 10, 0, true⟩,
              ⟨7, 10, 0, true⟩, ⟨8, 10, 0, true⟩, ⟨9, 10, 0, true⟩,
              ⟨10, 10, 0, true⟩], a.ordinal < b.ordinal :=
  maybeCompact_evicts_oldest_prefix 100000 720 70 100 _ (by decide)

theorem dictGetD_of_find_none {kw : Kwargs} {k : String} (d : Val)
    (h : dictFind kw k = none) : dictGetD kw k d = d := by
  simp [dictGetD, h]

theorem elroyContextInit_ok_of_int {kw : Kwargs} {n : Int}
    (h : dictFind kw "max_tokens" = some (Val.int n)) :
    elroyContextInit kw =
      .ok
        { config := ⟨kw⟩
          maxTokens := Val.int n
          contextRefreshTargetTokens := Int.tdiv n 3
          l2MemoryRelevanceDistanceThreshold :=
            dictGet kw "l2_memory_relevance_distance_threshold"
          memoriesBetweenConsolidation :=
            dictGet kw "memories_between_consolidation" } := by
  simp [elroyContextInit, dictGet, dictGetD, h, intDivThree]

theorem elroyContextInit_ok_of_absent {kw : Kwargs}
    (h : dictFind kw "max_tokens" = none) :
    elroyContextInit kw =
      .ok
        { config := ⟨kw⟩
          maxTokens := Val.pyNone
          contextRefreshTargetTokens := 1333
          l2MemoryRelevanceDistanceThreshold :=
            dictGet kw "l2_memory_relevance_distance_threshold"
          memoriesBetweenConsolidation :=
            dictGet kw "memories_between_consolidation" } := by
  simp [elroyContextInit, dictGet, dictGetD, h, intDivThree]
  decide

/-- C10: for every attribute name not supplied at construction, attribute
access on `ElroyConfig` yields Python `None` (the `getattr` fallback in
`ElroyConfig.__getattr__`), never an `AttributeError`: the access is total. -/
theorem elroyConfig_unset_attr_is_none (kw : Kwargs) (name : String)
    (h : dictFind kw name = none) :
    ElroyConfig.getattr ⟨kw⟩ name = Val.pyNone := by
  simp [ElroyConfig.getattr, dictGet, dictGetD_of_find_none _ h]

/-- Witness for C10: a config constructed with only `max_tokens` set yields
`None` for the unset `database_url` parameter. -/
theorem elroyConfig_unset_attr_is_none_witness :
    dictFind [("max_tokens", Val.int 10000)] "database_url" = none ∧
      ElroyConfig.getattr ⟨[("max_tokens", Val.int 10000)]⟩ "database_url" =
        Val.pyNone :=
  ⟨rfl, elroyConfig_unset_attr_is_none _ _ rfl⟩

/-- C9: `ElroyContext.__init__` sets `context_refresh_target_tokens` to
`int(kwargs.get('max_tokens', 4000) / 3)`: the integer floor of `max_tokens`
divided by 3 (floor and truncation agree on the nonnegative token counts),
`1333` when `max_tokens` is absent (default `4000`), and a value that depends
only on the `max_tokens` entry — it is not independently configurable. -/
theorem contextRefreshTargetTokens_is_third_of_max_tokens :
    (∀ (kw : Kwargs) (n : Int), dictFind kw "max_tokens" = some (Val.int n) →
      0 ≤ n →
      (elroyContextInit kw).map ElroyContext.contextRefreshTargetTokens =
        .ok (n / 3)) ∧
    (∀ kw : Kwargs, dictFind kw "max_tokens" = none →
      (elroyContextInit kw).map ElroyContext.contextRefreshTargetTokens =
        .ok 1333) ∧
    (∀ kw kw' : Kwargs,
      dictFind kw "max_tokens" = dictFind kw' "max_tokens" →
      (elroyContextInit kw).map ElroyContext.contextRefreshTargetTokens =
        (elroyContextInit kw').map ElroyContext.contextRefreshTargetTokens) := by
  refine ⟨?_, ?_, ?_⟩
  · intro kw n h hn
    rw [elroyContextInit_ok_of_int h, Int.tdiv_eq_ediv hn (by omega)]
    rfl
  · intro kw h
    rw [elroyContextInit_ok_of_absent h]
    rfl
  · intro kw kw' h
    cases hf : dictFind kw "max_tokens" with
    | none =>
      rw [elroyContextInit_ok_of_absent hf,
        elroyContextInit_ok_of_absent (h ▸ hf)]
      rfl
    | some v =>
      cases v with
      | int n =>
        rw [elroyContextInit_ok_of_int hf, elroyContextInit_ok_of_int (h ▸ hf)]
        rfl
      | pyNone =>
        simp [elroyContextInit, dictGetD, hf, h ▸ hf, intDivThree]
      | rat q =>
        simp [elroyContextInit, dictGetD, hf, h ▸ hf, intDivThree]
      | str s =>
        simp [elroyContextInit, dictGetD, hf, h ▸ hf, intDivThree]
      | bool b =>
        simp [elroyContextInit, dictGetD, hf, h ▸ hf, intDivThree]

/-- Witness for C9: with `max_tokens = 10000` the target is `3333`; absent, it
is `1333`; and adding an unrelated parameter leaves the target unchanged. -/
theorem contextRefreshTargetTokens_is_third_of_max_tokens_witness :
    (elroyContextInit [("max_tokens", Val.int 10000)]).map
        ElroyContext.contextRefreshTargetTokens = .ok ((10000 : Int) / 3) ∧
    (elroyContextInit []).map ElroyContext.contextRefreshTargetTokens =
        .ok 1333 ∧
    (elroyContextInit [("debug", Val.bool true)]).map
        ElroyContext.contextRefreshTargetTokens =
      (elroyContextInit []).map ElroyContext.contextRefreshTargetTokens :=
  ⟨contextRefreshTargetTokens_is_third_of_max_tokens.1 _ 10000 rfl (by omega),
    contextRefreshTargetTokens_is_third_of_max_tokens.2.1 [] rfl,
    contextRefreshTargetTokens_is_third_of_max_tokens.2.2 _ _ rfl⟩

/-- Counterexample to C6 as stated: the configuration `max_tokens = 0` is
accepted by `ElroyContext.__init__` (construction succeeds, no validation),
yet the trigger budget (`max_tokens = 0`) is not strictly greater than the
target budget (`int(0 / 3) = 0`). -/
theorem trigger_budget_not_always_gt_target :
    (elroyContextInit [("max_tokens", Val.int 0)]).map ElroyContext.maxTokens =
      .ok (Val.int 0) ∧
    (elroyContextInit [("max_tokens", Val.int 0)]).map
        ElroyContext.contextRefreshTargetTokens = .ok 0 ∧
    ¬ ((0 : Int) < 0) :=
  ⟨rfl, rfl, by omega⟩

/-- C6 amended: for every configuration whose `max_tokens` entry is a
positive integer, the trigger budget is strictly greater than the computed
target budget; the degenerate accepted configuration `max_tokens = 0` gives
trigger = target = 0. -/
theorem trigger_budget_gt_target_of_pos (kw : Kwargs) (n : Int)
    (h : dictFind kw "max_tokens" = some (Val.int n)) (hn : 1 ≤ n) :
    ∃ c : ElroyContext, elroyContextInit kw = .ok c ∧ c.maxTokens = Val.int n ∧
      c.contextRefreshTargetTokens < n := by
  refine ⟨_, elroyContextInit_ok_of_int h, rfl, ?_⟩
  show Int.tdiv n 3 < n
  rw [Int.tdiv_eq_ediv (by omega) (by omega)]
  omega

/-- Witness for C6 amended: at `max_tokens = 4000` the trigger `4000` exceeds
the target `1333`. -/
theorem trigger_budget_gt_target_of_pos_witness :
    ∃ c : ElroyContext,
      elroyContextInit [("max_tokens", Val.int 4000)] = .ok c ∧
        c.maxTokens = Val.int 4000 ∧ c.contextRefreshTargetTokens < 4000 :=
  trigger_budget_gt_target_of_pos _ 4000 rfl (by omega)

/-- Counterexample to C8 as stated: a configuration in which the target
budget is greater than or equal to the trigger budget (`max_tokens = 0`, so
target = trigger = 0) is NOT rejected: `ElroyContext.__init__` succeeds, and
no `InvariantViolation` (or any budget validation) exists in the
constructor or in `ElroyContext.init`. -/
theorem degenerate_budget_config_not_rejected :
    elroyContextInit [("max_tokens", Val.int 0)] =
      .ok
        { config := ⟨[("max_tokens", Val.int 0)]⟩
          maxTokens := Val.int 0
          contextRefreshTargetTokens := 0
          l2MemoryRelevanceDistanceThreshold := Val.pyNone
          memoriesBetweenConsolidation := Val.pyNone } ∧
    (0 : Int) ≤ 0 :=
  ⟨rfl, by omega⟩

/-- C8 amended: configuration validation never rejects a budget
configuration: for every kwargs dict whose `max_tokens` entry is an integer
or absent, `ElroyContext.__init__` succeeds — even when the resulting target
budget is greater than or equal to the trigger budget. -/
theorem elroyContextInit_never_validates_budgets (kw : Kwargs)
    (h : (∃ n : Int, dictFind kw "max_tokens" = some (Val.int n)) ∨
      dictFind kw "max_tokens" = none) :
    ∃ c : ElroyContext, elroyContextInit kw = .ok c := by
  rcases h with ⟨n, h⟩ | h
  · exact ⟨_, elroyContextInit_ok_of_int h⟩
  · exact ⟨_, elroyContextInit_ok_of_absent h⟩

/-- Witness for C8 amended: the degenerate configuration `max_tokens = 0`
initializes successfully. -/
theorem elroyContextInit_never_validates_budgets_witness :
    ∃ c : ElroyContext, elroyContextInit [("max_tokens", Val.int 0)] = .ok c :=
  elroyContextInit_never_validates_budgets _ (Or.inl ⟨0, rfl⟩)

theorem find?_id_map_of_id_preserved (f : Memory → Memory)
    (hf : ∀ m, (f m).id = m.id) (l : List Memory) (i : Nat) :
    (l.map f).find? (fun m => m.id == i) =
      (l.find? (fun m => m.id == i)).map f := by
  induction l with
  | nil => rfl
  | cons a l ih =>
    have hfa : ((f a).id == i) = (a.id == i) := by rw [hf]
    rw [List.map_cons, List.find?_cons, List.find?_cons, hfa]
    cases hb : (a.id == i) with
    | true => rfl
    | false => exact ih

theorem getMemory_markConsolidated (st : MemoryStore) (oldIds : List Nat)
    (newId i : Nat) :
    getMemory (markConsolidated st oldIds newId) i =
      (getMemory st i).map fun m =>
        if m.id ∈ oldIds then { m with state := .consolidatedInto newId }
        else m := by
  unfold getMemory markConsolidated
  exact find?_id_map_of_id_preserved _
    (fun m => by by_cases h : m.id ∈ oldIds <;> simp [h]) _ _

/-- C4: `Memory Store.create` is atomic with respect to the embedding call:
if the provider is unreachable it fails with `EmbeddingUnavailable` and no
Memory row is persisted, and on success the only new row carries the
computed embedding — a store with no orphaned rows never acquires one. -/
theorem createMemory_atomic (embedFn : String → Option (List Rat))
    (st : MemoryStore) (name text : String) (owner : Nat) (now : Int)
    (hw : st.WellEmbedded) :
    (embedFn text = none →
      createMemory embedFn st name text owner now =
        .error .embeddingUnavailable) ∧
    (∀ st' newId,
      createMemory embedFn st name text owner now = .ok (st', newId) →
      newId = st.nextId ∧
      ∃ v, embedFn text = some v ∧
        st'.mems = st.mems ++
          [{ id := st.nextId, name := name, text := text,
             embedding := some v, createdAt := now, owner := owner,
             state := .active }] ∧
        st'.WellEmbedded) := by
  cases h : embedFn text with
  | none =>
    refine ⟨fun _ => ?_, fun st' newId hok => ?_⟩
    · simp [createMemory, h]
    · simp [createMemory, h] at hok
  | some v =>
    have hcreate : createMemory embedFn st name text owner now =
        .ok
          ({ mems := st.mems ++
                [{ id := st.nextId, name := name, text := text,
                   embedding := some v, createdAt := now, owner := owner,
                   state := .active }]
             nextId := st.nextId + 1 },
            st.nextId) := by
      simp [createMemory, h]
    refine ⟨fun hcontra => by simp_all, fun st' newId hok => ?_⟩
    rw [hcreate] at hok
    injection hok with hok
    cases hok
    refine ⟨rfl, v, rfl, rfl, ?_⟩
    intro m hm
    rcases List.mem_append.mp hm with hm | hm
    · exact hw m hm
    · simp only [List.mem_singleton] at hm
      subst hm
      simp

/-- Witness for C4: with an unreachable embedding provider, `create` on an
empty store fails with `EmbeddingUnavailable` (no row written). -/
theorem createMemory_atomic_witness :
    createMemory (fun _ => none) ⟨[], 0⟩ "boat" "a red boat" 7 5 =
      .error .embeddingUnavailable :=
  (createMemory_atomic (fun _ => none) ⟨[], 0⟩ "boat" "a red boat" 7 5
    (by intro m hm; cases hm)).1 rfl

/-- C3: consolidation of a cluster is atomic with provenance: if the
summarization call fails, or the subsequent embedding-backed `create` fails,
the store is returned untouched (members stay active/unconsolidated); and on
success a new active memory D with the summarized name/body exists under the
fresh id, and every cluster member's state is consolidated-into(D). -/
theorem consolidateCluster_atomic (embedFn : String → Option (List Rat))
    (summarize : List String → Option (String × String)) (st : MemoryStore)
    (memberIds : List Nat) (owner : Nat) (now : Int)
    (hwf : st.WF) (hmem : ∀ i ∈ memberIds, ∃ m, getMemory st i = some m) :
    (summarize (clusterTexts st memberIds) = none →
      consolidateCluster embedFn summarize st memberIds owner now = st) ∧
    (∀ nm bd, summarize (clusterTexts st memberIds) = some (nm, bd) →
      embedFn bd = none →
      consolidateCluster embedFn summarize st memberIds owner now = st) ∧
    (∀ nm bd v, summarize (clusterTexts st memberIds) = some (nm, bd) →
      embedFn bd = some v →
      getMemory (consolidateCluster embedFn summarize st memberIds owner now)
          st.nextId =
        some { id := st.nextId, name := nm, text := bd, embedding := some v,
               createdAt := now, owner := owner, state := .active } ∧
      ∀ i ∈ memberIds,
        ∃ m,
          getMemory
              (consolidateCluster embedFn summarize st memberIds owner now)
              i = some m ∧
          m.state = .consolidatedInto st.nextId) := by
  have hfresh : st.nextId ∉ memberIds := by
    intro hin
    obtain ⟨m, hm⟩ := hmem _ hin
    have hmm := List.mem_of_find?_eq_some hm
    have hp := List.find?_some hm
    simp only [beq_iff_eq] at hp
    have := hwf m hmm
    omega
  refine ⟨fun hs => by simp [consolidateCluster, hs], ?_, ?_⟩
  · intro nm bd hs he
    simp [consolidateCluster, hs, createMemory, he]
  · intro nm bd v hs he
    have hres :
        consolidateCluster embedFn summarize st memberIds owner now =
          markConsolidated
            ⟨st.mems ++
              [{ id := st.nextId, name := nm, text := bd,
                 embedding := some v, createdAt := now, owner := owner,
                 state := .active }], st.nextId + 1⟩
            memberIds st.nextId := by
      simp [consolidateCluster, hs, createMemory, he]
    rw [hres]
    constructor
    · rw [getMemory_markConsolidated]
      have hnone : (st.mems.find? (fun m => m.id == st.nextId)) = none := by
        rw [List.find?_eq_none]
        intro m hm
        have := hwf m hm
        simp only [beq_iff_eq]
        omega
      show ((st.mems ++ _).find? _).map _ = _
      rw [List.find?_append, hnone, Option.none_or]
      simp [List.find?, hfresh]
    · intro i hi
      obtain ⟨m, hm⟩ := hmem i hi
      have hid : m.id = i := by
        have := List.find?_some hm
        simpa using this
      rw [getMemory_markConsolidated]
      have hstep : getMemory
          ⟨st.mems ++
            [{ id := st.nextId, name := nm, text := bd,
               embedding := some v, createdAt := now, owner := owner,
               state := .active }], st.nextId + 1⟩ i = some m := by
        unfold getMemory at hm ⊢
        rw [List.find?_append, hm]
        rfl
      rw [hstep]
      refine ⟨_, rfl, ?_⟩
      simp [hid, hi]

/-- Witness for C3: a store of three active memories consolidated with a
successful summarizer and embedding provider: the merged memory D is created
active under the fresh id 3 and every member ends consolidated-into(3). -/
theorem consolidateCluster_atomic_witness :
    getMemory
        (consolidateCluster (fun _ => some [0])
          (fun _ => some ("D", "merged"))
          ⟨[{ id := 0, name := "a", text := "ta", embedding := some [0],
              createdAt := 0, owner := 7, state := .active },
            { id := 1, name := "b", text := "tb", embedding := some [0],
              createdAt := 1, owner := 7, state := .active },
            { id := 2, name := "c", text := "tc", embedding := some [0],
              createdAt := 2, owner := 7, state := .active }], 3⟩
          [0, 1, 2] 7 100) 3 =
      some { id := 3, name := "D", text := "merged", embedding := some [0],
             createdAt := 100, owner := 7, state := .active } ∧
    ∀ i ∈ [0, 1, 2],
      ∃ m,
        getMemory
            (consolidateCluster (fun _ => some [0])
              (fun _ => some ("D", "merged"))
              ⟨[{ id := 0, name := "a", text := "ta", embedding := some [0],
                  createdAt := 0, owner := 7, state := .active },
                { id := 1, name := "b", text := "tb", embedding := some [0],
                  createdAt := 1, owner := 7, state := .active },
                { id := 2, name := "c", text := "tc", embedding := some [0],
                  createdAt := 2, owner := 7, state := .active }], 3⟩
              [0, 1, 2] 7 100) i = some m ∧
        m.state = .consolidatedInto 3 :=
  (consolidateCluster_atomic (fun _ => some [0])
    (fun _ => some ("D", "merged")) _ [0, 1, 2] 7 100
    (by intro m hm; fin_cases hm <;> decide)
    (by intro i hi; fin_cases hi <;> exact ⟨_, rfl⟩)).2.2
    "D" "merged" [0] rfl rfl

theorem qualifies_iff (owner : Nat) (qv : List Rat) (maxd : Rat)
    (m : Memory) :
    qualifies owner qv maxd m = true ↔
      m.owner = owner ∧ m.state = .active ∧
        ∃ e, m.embedding = some e ∧ distSq e qv ≤ maxd * maxd := by
  unfold qualifies
  cases he : m.embedding with
  | none => simp [he]
  | some e => simp [he, and_assoc]

/-- C5: `Similarity Index.query(owner, qv, k, maxd)` returns at most k
memories; every returned memory is owner-scoped, active, and at squared L2
distance at most maxd² (so a memory at exactly max_distance qualifies and
one strictly beyond does not); results are sorted ascending by distance
with ties broken by most-recent creation timestamp; when at most k memories
qualify the result contains exactly the qualifying ones; and when nothing
qualifies the result is the empty sequence, not an error. -/
theorem simQuery_spec (index : List Memory) (owner : Nat) (qv : List Rat)
    (k : Nat) (maxd : Rat) :
    (simQuery index owner qv k maxd).length ≤ k ∧
    (∀ m ∈ simQuery index owner qv k maxd,
      m.owner = owner ∧ m.state = .active ∧
        ∃ e, m.embedding = some e ∧ distSq e qv ≤ maxd * maxd) ∧
    List.Sorted (recallLE qv) (simQuery index owner qv k maxd) ∧
    ((index.filter (qualifies owner qv maxd)).length ≤ k →
      ∀ m, m ∈ simQuery index owner qv k maxd ↔
        m ∈ index ∧ qualifies owner qv maxd m = true) ∧
    ((∀ m ∈ index, qualifies owner qv maxd m = false) →
      simQuery index owner qv k maxd = []) := by
  refine ⟨List.length_take_le _ _, ?_, ?_, ?_, ?_⟩
  · intro m hm
    have hm1 : m ∈ (index.filter
        (qualifies owner qv maxd)).insertionSort (recallLE qv) :=
      List.take_subset _ _ hm
    rw [List.mem_insertionSort] at hm1
    exact (qualifies_iff owner qv maxd m).mp (List.mem_filter.mp hm1).2
  · exact List.Pairwise.sublist (List.take_sublist _ _)
      (List.sorted_insertionSort _ _)
  · intro hlen m
    unfold simQuery
    rw [List.take_of_length_le
        (by rw [List.length_insertionSort]; exact hlen),
      List.mem_insertionSort, List.mem_filter]
  · intro hnone
    unfold simQuery
    have hfil : index.filter (qualifies owner qv maxd) = [] := by
      rw [List.filter_eq_nil_iff]
      intro a ha
      simp [hnone a ha]
    rw [hfil]
    simp [List.insertionSort]

/-- Witness for C5, the distance-threshold boundary: with max_distance 2, a
memory at squared distance exactly 4 is in the result and one at squared
distance 9 is not (both iffs instantiated from the theorem and the
membership sides evaluated). -/
theorem simQuery_spec_witness :
    (({ id := 0, name := "a", text := "", embedding := some [2],
        createdAt := 5, owner := 1, state := .active } : Memory) ∈
        simQuery
          [{ id := 0, name := "a", text := "", embedding := some [2],
             createdAt := 5, owner := 1, state := .active },
           { id := 1, name := "b", text := "", embedding := some [3],
             createdAt := 6, owner := 1, state := .active }] 1 [0] 5 2 ↔
      ({ id := 0, name := "a", text := "", embedding := some [2],
         createdAt := 5, owner := 1, state := .active } : Memory) ∈
          [{ id := 0, name := "a", text := "", embedding := some [2],
             createdAt := 5, owner := 1, state := .active },
           { id := 1, name := "b", text := "", embedding := some [3],
             createdAt := 6, owner := 1, state := .active }] ∧
        qualifies 1 [0] 2
          { id := 0, name := "a", text := "", embedding := some [2],
            createdAt := 5, owner := 1, state := .active } = true) ∧
    (({ id := 1, name := "b", text := "", embedding := some [3],
        createdAt := 6, owner := 1, state := .active } : Memory) ∈
        simQuery
          [{ id := 0, name := "a", text := "", embedding := some [2],
             createdAt := 5, owner := 1, state := .active },
           { id := 1, name := "b", text := "", embedding := some [3],
             createdAt := 6, owner := 1, state := .active }] 1 [0] 5 2 ↔
      ({ id := 1, name := "b", text := "", embedding := some [3],
         createdAt := 6, owner := 1, state := .active } : Memory) ∈
          [{ id := 0, name := "a", text := "", embedding := some [2],
             createdAt := 5, owner := 1, state := .active },
           { id := 1, name := "b", text := "", embedding := some [3],
             createdAt := 6, owner := 1, state := .active }] ∧
        qualifies 1 [0] 2
          { id := 1, name := "b", text := "", embedding := some [3],
            createdAt := 6, owner := 1, state := .active } = true) :=
  ⟨(simQuery_spec
      [{ id := 0, name := "a", text := "", embedding := some [2],
         createdAt := 5, owner := 1, state := .active },
       { id := 1, name := "b", text := "", embedding := some [3],
         createdAt := 6, owner := 1, state := .active }] 1 [0] 5 2).2.2.2.1
      ((List.length_filter_le _ _).trans (by norm_num)) _,
    (simQuery_spec
      [{ id := 0, name := "a", text := "", embedding := some [2],
         createdAt := 5, owner := 1, state := .active },
       { id := 1, name := "b", text := "", embedding := some [3],
         createdAt := 6, owner := 1, state := .active }] 1 [0] 5 2).2.2.2.1
      ((List.length_filter_le _ _).trans (by norm_num)) _⟩

/-- C7: a consolidation pass runs exactly when the
memories-since-last-consolidation counter (after the increment for the
newly created memory) has reached the configured threshold, whose default
is 4, and every pass resets the counter to zero; `should_consolidate` is
precisely the threshold comparison. -/
theorem consolidation_runs_iff_threshold (threshold : Nat)
    (t : MemoryOperationTracker) :
    ((onMemoryCreated threshold t).1 = true ↔
      threshold ≤ t.memoriesSinceConsolidation + 1) ∧
    ((onMemoryCreated threshold t).1 = true →
      (onMemoryCreated threshold t).2.memoriesSinceConsolidation = 0) ∧
    defaultMemoriesBetweenConsolidation = 4 ∧
    (shouldConsolidate threshold t = true ↔
      threshold ≤ t.memoriesSinceConsolidation) := by
  unfold onMemoryCreated shouldConsolidate
  by_cases h : threshold ≤ t.memoriesSinceConsolidation + 1
  · simp [h, defaultMemoriesBetweenConsolidation]
  · simp [h, defaultMemoriesBetweenConsolidation]

/-- Witness for C7: at the default threshold 4, a tracker with 3 memories
since the last consolidation triggers on the 4th created memory and its
counter resets to zero. -/
theorem consolidation_runs_iff_threshold_witness :
    (onMemoryCreated 4 ⟨3, 0⟩).1 = true ∧
      (onMemoryCreated 4 ⟨3, 0⟩).2.memoriesSinceConsolidation = 0 :=
  ⟨(consolidation_runs_iff_threshold 4 ⟨3, 0⟩).1.mpr (by decide),
    (consolidation_runs_iff_threshold 4 ⟨3, 0⟩).2.1
      ((consolidation_runs_iff_threshold 4 ⟨3, 0⟩).1.mpr (by decide))⟩

end Elroy
